import Mathlib

/-!
# Verification of the Certificate Authority service

A shallow embedding of the CA state engine of this repository (Go sources
`dn.go`, the verify/engine/store file, and the CRL generator reproduced in
`artifacts/CONTRACTS.md`) together with proofs about it.

Modelling conventions:
* file contents are Lean `String`s; the parsed `index.json` is a
  `List IndexEntry`; presence of `ca.key` / `ca.crt` / `ca.crl` is tracked
  explicitly (the cryptographic payloads of key and certificate files play
  no role in the verified properties and are not modelled);
* Go's `time.Time` values are modelled as `Nat`, ordered as Go orders wall
  clock times, with `0` standing for the zero `time.Time`; ambient calls to
  `time.Now()` become explicit parameters;
* outcomes of cryptographic library calls (CSR self-signature check,
  certificate signature check) are carried as boolean fields of the input
  records, since the engine only branches on their success;
* fallible operations return `Except String` carrying the Go error text.
-/

deriving instance DecidableEq for Except

namespace CAService

/-! ## Go string primitives

`strings.TrimSpace`, `strings.Split(s, ",")`, `strings.Index(s, "=")` and
`strings.ToUpper` modelled on `List Char`.  `goIsSpace` is `unicode.IsSpace`
restricted to the ASCII whitespace characters (the only ones the engine ever
writes or that the verified properties exercise). -/

def goIsSpace (c : Char) : Bool :=
  c = ' ' || c = '\t' || c = '\n' || c = Char.ofNat 11 || c = Char.ofNat 12 || c = '\r'

/-- `strings.TrimSpace`: drop leading and trailing whitespace. -/
def trimChars (l : List Char) : List Char :=
  ((l.dropWhile goIsSpace).reverse.dropWhile goIsSpace).reverse

/-- `strings.Split(s, ",")`: split at every comma; `""` yields `[""]`. -/
def splitComma : List Char → List (List Char)
  | [] => [[]]
  | c :: rest =>
    match splitComma rest with
    | [] => [[]]
    | p :: ps => if c = ',' then [] :: p :: ps else (c :: p) :: ps

/-- `strings.Join(parts, ",")`. -/
def joinComma : List (List Char) → List Char
  | [] => []
  | [p] => p
  | p :: ps => p ++ ',' :: joinComma ps

/-- `strings.Index(part, "=")` followed by the slicing `part[:idx]`,
`part[idx+1:]`: split at the first `'='`, `none` when there is none. -/
def splitAtEq : List Char → Option (List Char × List Char)
  | [] => none
  | c :: rest =>
    if c = '=' then some ([], rest)
    else
      match splitAtEq rest with
      | none => none
      | some (t, v) => some (c :: t, v)

/-- `strings.ToUpper` on ASCII letters. -/
def goToUpperChar (c : Char) : Char :=
  if 'a' ≤ c && c ≤ 'z' then Char.ofNat (c.toNat - 32) else c

def goToUpper (l : List Char) : List Char := l.map goToUpperChar

/-! ## Hexadecimal counters

`FormatSerial` (Go `fmt.Sprintf("%02x", n)`), `FormatSerialBig`, and the
parsing half of `ReadCounter` (Go `strconv.ParseInt(s, 16, 64)`; the sign
and the int64 range check of `ParseInt` are unreachable on engine-written
files and are not modelled). -/

def hexDigitChar (n : Nat) : Char :=
  if n < 10 then Char.ofNat (48 + n) else Char.ofNat (87 + n)

/-- Hex digits of `n`, most significant first; `fuel` bounds the recursion
depth (any `fuel > n` is enough). -/
def toHexAux : Nat → Nat → List Char
  | 0, _ => []
  | fuel + 1, n =>
    if n < 16 then [hexDigitChar n]
    else toHexAux fuel (n / 16) ++ [hexDigitChar (n % 16)]

def toHexChars (n : Nat) : List Char := toHexAux (n + 1) n

/-- `FormatSerial`: lowercase hex, zero-padded to at least 2 digits
(`%02x`). -/
def formatSerial (n : Nat) : String :=
  let s := toHexChars n
  ⟨if s.length < 2 then List.replicate (2 - s.length) '0' ++ s else s⟩

/-- `FormatSerialBig`: lowercase hex of a big integer, left-padded with one
`'0'` when shorter than 2 digits. -/
def formatSerialBig (n : Nat) : String :=
  let s := toHexChars n
  ⟨if s.length < 2 then '0' :: s else s⟩

/-- Value of one hex digit (`ParseInt` accepts both cases). -/
def hexVal (c : Char) : Option Nat :=
  if '0' ≤ c && c ≤ '9' then some (c.toNat - 48)
  else if 'a' ≤ c && c ≤ 'f' then some (c.toNat - 87)
  else if 'A' ≤ c && c ≤ 'F' then some (c.toNat - 55)
  else none

def parseHexCore : List Char → Nat → Option Nat
  | [], acc => some acc
  | c :: rest, acc =>
    match hexVal c with
    | none => none
    | some d => parseHexCore rest (16 * acc + d)

def parseHexNat (l : List Char) : Option Nat :=
  if l = [] then none else parseHexCore l 0

/-- `ReadCounter` on given file contents: trim whitespace, parse as hex. -/
def readCounter (contents : String) : Option Nat :=
  parseHexNat (trimChars contents.toList)

/-! ## InitCA commit order and failure cleanup (file-name level)

`InitCA`'s stage and commit sub-phases manipulate a fixed set of paths; the
two claims about them are settled at the level of file-name lists. -/

/-- The `.tmp` staging order of `InitCA` (writes at source lines 314–348):
`ca.key.tmp`, `ca.crt.tmp`, `serial.tmp`, `crlnumber.tmp`, `index.json.tmp`. -/
def initStageOrder : List String :=
  ["ca.key.tmp", "ca.crt.tmp", "serial.tmp", "crlnumber.tmp", "index.json.tmp"]

/-- `tmpPaths` of `InitCA` (source lines 306–312). -/
def initTmpPaths : List String :=
  ["ca.key.tmp", "ca.crt.tmp", "serial.tmp", "crlnumber.tmp", "index.json.tmp"]

/-- The commit sub-phase rename order of `InitCA`, final names in the order
the source renames them (source lines 351–357): `ca.key`, `ca.crt`,
`serial`, `crlnumber`, `index.json`. -/
def initCommitOrder : List String :=
  ["ca.key", "ca.crt", "serial", "crlnumber", "index.json"]

/-- The commit order the specification (§4.4.1) and the repository's
DESIGN.md step 7 require: support files first, the initialization markers
`ca.key`/`ca.crt` last. Stated from the spec's words, for comparison with
`initCommitOrder`. -/
def specInitCommitOrder : List String :=
  ["serial", "crlnumber", "index.json", "ca.key", "ca.crt"]

/-- `IsInitialized` evaluated on a plain list of the file names present in
the data directory: both `ca.key` and `ca.crt` exist. -/
def isInitializedFiles (files : List String) : Bool :=
  files.contains "ca.key" && files.contains "ca.crt"

/-- `cleanupTempFiles`: best-effort `os.Remove` of each listed path — the
resulting directory listing keeps exactly the files not listed. -/
def cleanupTempFiles (paths : List String) (files : List String) : List String :=
  files.filter (fun p => !paths.contains p)

/-- Directory listing after `InitCA` fails at the `k`-th stage write,
starting from a directory listing `fs0`: `InitDataDir` has created `certs/`,
the first `k` stage writes have produced their `.tmp` files, and
`cleanupTempFiles initTmpPaths` has run. -/
def initCAStageFailureFiles (fs0 : List String) (k : Nat) : List String :=
  cleanupTempFiles initTmpPaths (fs0 ++ ["certs/"] ++ initStageOrder.take k)

/-! ## Name codec (`dn.go`)

`ParseDN` / `FormatDN` over a structured name mirroring `pkix.Name`'s
fields used by the codec.  `ParseDN`'s `fmt.Errorf` messages are carried as
an error datatype holding the same data the Go format verbs receive. -/

structure DName where
  commonName : String
  organization : List String
  organizationalUnit : List String
  locality : List String
  province : List String
  country : List String
deriving DecidableEq, Repr

def emptyDName : DName :=
  { commonName := "", organization := [], organizationalUnit := [],
    locality := [], province := [], country := [] }

inductive DNError where
  /-- `"distinguished name cannot be empty"` -/
  | emptyDN : DNError
  /-- `"invalid DN component: %q (missing '=')"` -/
  | missingEq : String → DNError
  /-- `"empty value for attribute %q"` -/
  | emptyValue : String → DNError
  /-- `"unknown attribute type %q"` -/
  | unknownType : String → DNError
deriving DecidableEq, Repr

/-- One loop iteration of `ParseDN` on an already-trimmed, non-empty
component: find `'='`, trim type and value, dispatch on the uppercased
type. -/
def applyComponent (name : DName) (part : List Char) : Except DNError DName :=
  match splitAtEq part with
  | none => .error (.missingEq ⟨part⟩)
  | some (t, v) =>
    let attrT := trimChars t
    let attrV := trimChars v
    if attrV = [] then .error (.emptyValue ⟨attrT⟩)
    else
      let u : String := ⟨goToUpper attrT⟩
      if u = "CN" then .ok { name with commonName := ⟨attrV⟩ }
      else if u = "O" then
        .ok { name with organization := name.organization ++ [⟨attrV⟩] }
      else if u = "OU" then
        .ok { name with organizationalUnit := name.organizationalUnit ++ [⟨attrV⟩] }
      else if u = "L" then
        .ok { name with locality := name.locality ++ [⟨attrV⟩] }
      else if u = "ST" then
        .ok { name with province := name.province ++ [⟨attrV⟩] }
      else if u = "C" then
        .ok { name with country := name.country ++ [⟨attrV⟩] }
      else .error (.unknownType ⟨attrT⟩)

/-- The component loop of `ParseDN`: trim each part, skip empty parts,
return the first error. -/
def parseParts : List (List Char) → DName → Except DNError DName
  | [], name => .ok name
  | part :: rest, name =>
    if trimChars part = [] then parseParts rest name
    else
      match applyComponent name (trimChars part) with
      | .error e => .error e
      | .ok name' => parseParts rest name'

/-- `ParseDN` (`dn.go` lines 15–56). -/
def parseDN (s : String) : Except DNError DName :=
  if trimChars s.toList = [] then .error .emptyDN
  else parseParts (splitComma s.toList) emptyDName

/-- The component list `FormatDN` builds (`dn.go` lines 60–80): `CN` when
non-empty, then every `O`, `OU`, `L`, `ST`, `C` element in stored order. -/
def dnComponents (n : DName) : List (List Char) :=
  (if n.commonName = "" then [] else [['C', 'N', '='] ++ n.commonName.toList])
  ++ n.organization.map (fun o => ['O', '='] ++ o.toList)
  ++ n.organizationalUnit.map (fun u => ['O', 'U', '='] ++ u.toList)
  ++ n.locality.map (fun l => ['L', '='] ++ l.toList)
  ++ n.province.map (fun p => ['S', 'T', '='] ++ p.toList)
  ++ n.country.map (fun c => ['C', '='] ++ c.toList)

/-- `FormatDN`: the components joined with `","`. -/
def formatDN (n : DName) : String := ⟨joinComma (dnComponents n)⟩

/-! ## Engine data model

The persistent state `InitCA` / `SignCSR` / `RevokeCert` / `GenerateCRL` /
`ListCerts` / `VerifyCert` read and write.  `index` is the parsed contents
of `index.json`; `certFiles` the file names under `certs/`; `crlFile` is
`none` exactly when `ca.crl` is absent and otherwise holds the parsed
revoked-certificate entries of the CRL. -/

structure IndexEntry where
  serial : String
  subject : String
  notBefore : String
  notAfter : String
  status : String
  revokedAt : String
  revocationReason : String
deriving DecidableEq, Repr

structure CRLEntry where
  serial : Nat
  reasonCode : Nat
  /-- the `revoked_at` text the entry's `RevocationTime` was parsed from -/
  revTimeStr : String
deriving DecidableEq, Repr

structure CAState where
  caKeyFile : Bool
  caCrtFile : Bool
  serialFile : String
  crlnumberFile : String
  index : List IndexEntry
  certFiles : List String
  crlFile : Option (List CRLEntry)
deriving DecidableEq, Repr

/-- `IsInitialized`: both `ca.key` and `ca.crt` exist. -/
def isInitialized (s : CAState) : Bool := s.caKeyFile && s.caCrtFile

/-- `ReasonCodes` lookup with the Go two-valued map access
(`reasonCode, ok := ReasonCodes[name]; if !ok { reasonCode = 0 }`). -/
def reasonCodeOf (name : String) : Nat :=
  if name = "unspecified" then 0
  else if name = "keyCompromise" then 1
  else if name = "affiliationChanged" then 3
  else if name = "superseded" then 4
  else if name = "cessationOfOperation" then 5
  else 0

/-- `ReasonNames` lookup; a miss yields Go's zero value `""`. -/
def reasonNameOf (code : Nat) : String :=
  if code = 0 then "unspecified"
  else if code = 1 then "keyCompromise"
  else if code = 3 then "affiliationChanged"
  else if code = 4 then "superseded"
  else if code = 5 then "cessationOfOperation"
  else ""

/-! ## InitCA (state level) -/

/-- `InitCA` on the data-directory state: fail if already initialized,
otherwise (key generation, certificate self-signing and the staged writes
all succeeding) the committed state holds `serial = "02\n"`,
`crlnumber = "01\n"`, `index.json = "[]\n"`, both marker files, an empty
`certs/`, and leaves a pre-existing `ca.crl` alone. -/
def initCA (s : CAState) (dataDir : String) : Except String CAState :=
  if isInitialized s then
    .error ("Error: CA already initialized at " ++ dataDir)
  else
    .ok { caKeyFile := true, caCrtFile := true,
          serialFile := formatSerial 2 ++ "\n",
          crlnumberFile := formatSerial 1 ++ "\n",
          index := [], certFiles := [], crlFile := s.crlFile }

/-! ## SignCSR -/

/-- The public key embedded in a CSR, as far as the engine inspects it:
an ECDSA key with its curve name, an RSA key with `N.BitLen()`, or any
other key type. -/
inductive CSRPublicKey where
  | ecdsaKey (curve : String)
  | rsaKey (modulusBits : Nat)
  | otherKey
deriving DecidableEq, Repr

/-- A CSR input: whether `pem.Decode` finds a block, whether
`ParseCertificateRequest` succeeds, whether the self-signature check
`csr.CheckSignature()` succeeds, the embedded public key, the subject. -/
structure CSRInfo where
  pemOk : Bool
  parseOk : Bool
  sigOk : Bool
  pubKey : CSRPublicKey
  subject : DName
deriving DecidableEq, Repr

def unsupportedKeyMsg : String :=
  "Error: unsupported key algorithm in CSR. Supported: ECDSA P-256, RSA 2048"

/-- The acceptance condition §4.3 states for CSR public keys: P-256 ECDSA
or RSA with modulus bit length exactly 2048. -/
def keyAlgoSupported : CSRPublicKey → Bool
  | .ecdsaKey curve => curve = "P-256"
  | .rsaKey bits => bits = 2048
  | .otherKey => false

structure SignResult where
  serial : String
  subject : String
  notAfter : String
  certPath : String
deriving DecidableEq, Repr

/-- The mutate phase of `SignCSR` (source lines 422–546), with all staged
writes and commits succeeding: read the counter `N`, issue serial `N`,
write `certs/<hex N>.pem`, append one `active` index entry, write back
`N + 1`. -/
def signCSRMutate (s : CAState) (csr : CSRInfo) (nowStr notAfterStr : String) :
    Except String (SignResult × CAState) :=
  match readCounter s.serialFile with
  | none => .error "failed to read serial counter"
  | some serialVal =>
    let serialHex := formatSerial serialVal
    let certFilePath := "certs/" ++ serialHex ++ ".pem"
    let newEntry : IndexEntry :=
      { serial := serialHex, subject := formatDN csr.subject,
        notBefore := nowStr, notAfter := notAfterStr,
        status := "active", revokedAt := "", revocationReason := "" }
    .ok ({ serial := serialHex, subject := formatDN csr.subject,
           notAfter := notAfterStr, certPath := certFilePath },
         { s with serialFile := formatSerial (serialVal + 1) ++ "\n",
                  index := s.index ++ [newEntry],
                  certFiles := s.certFiles ++ [serialHex ++ ".pem"] })

/-- `SignCSR` (source lines 386–547).  The validate phase in source order:
initialization marker, PEM decode, PKCS#10 parse, self-signature, key
algorithm; only then the mutate phase.  `nowStr` / `notAfterStr` are the
RFC 3339 renderings of `time.Now().UTC()` and of the validity end. -/
def signCSR (s : CAState) (csr : CSRInfo) (csrPath nowStr notAfterStr : String) :
    Except String (SignResult × CAState) :=
  if !isInitialized s then
    .error "Error: CA not initialized. Run 'ca init' first."
  else if !csr.pemOk then
    .error ("Error: failed to parse CSR from " ++ csrPath)
  else if !csr.parseOk then
    .error ("Error: failed to parse CSR from " ++ csrPath)
  else if !csr.sigOk then
    .error "Error: CSR signature verification failed"
  else
    match csr.pubKey with
    | .ecdsaKey curve =>
      if curve ≠ "P-256" then .error unsupportedKeyMsg
      else signCSRMutate s csr nowStr notAfterStr
    | .rsaKey bits =>
      if bits ≠ 2048 then .error unsupportedKeyMsg
      else signCSRMutate s csr nowStr notAfterStr
    | .otherKey => .error unsupportedKeyMsg

/-- The data-directory state after a `SignCSR` call: unchanged whenever the
call returns an error (every `return nil, err` in the source happens before
any final-name file is renamed into place). -/
def signCSRFinal (s : CAState) (csr : CSRInfo) (csrPath nowStr notAfterStr : String) :
    CAState :=
  match signCSR s csr csrPath nowStr notAfterStr with
  | .error _ => s
  | .ok (_, s') => s'

/-! ## RevokeCert -/

/-- The search-and-mutate of `RevokeCert` (source lines 562–595) fused into
one pass: the source finds the index of the first entry with the given
serial, errors when there is none or when that entry is already revoked,
and otherwise updates exactly that entry. -/
def revokeInIndex (serialHex reason nowStr : String) :
    List IndexEntry → Except String (List IndexEntry)
  | [] => .error ("Error: certificate with serial " ++ serialHex ++ " not found")
  | e :: rest =>
    if e.serial = serialHex then
      if e.status = "revoked" then
        .error ("Error: certificate with serial " ++ serialHex ++ " is already revoked")
      else
        .ok ({ e with
               status := "revoked"
               revokedAt := nowStr
               revocationReason := reason } :: rest)
    else
      (revokeInIndex serialHex reason nowStr rest).map (fun l => e :: l)

/-- `RevokeCert` (source lines 556–595): marker check, then the index
search and single-entry mutation, saved back atomically. -/
def revokeCert (s : CAState) (serialHex reason nowStr : String) :
    Except String CAState :=
  if !isInitialized s then
    .error "Error: CA not initialized. Run 'ca init' first."
  else
    match revokeInIndex serialHex reason nowStr s.index with
    | .error e => .error e
    | .ok idx => .ok { s with index := idx }

/-! ## GenerateCRL (reproduced in `artifacts/CONTRACTS.md`) -/

/-- The entry-building loop of `GenerateCRL`: skip non-revoked entries;
for each revoked entry parse its serial (hex) and its `revoked_at`
timestamp (RFC 3339, modelled by the explicit `parseTime` function), map
the reason name to its code. -/
def buildCRLEntries (parseTime : String → Option Nat) :
    List IndexEntry → Except String (List CRLEntry)
  | [] => .ok []
  | e :: rest =>
    if e.status ≠ "revoked" then buildCRLEntries parseTime rest
    else
      match parseHexNat e.serial.toList with
      | none => .error ("failed to parse serial " ++ e.serial)
      | some sn =>
        match parseTime e.revokedAt with
        | none => .error ("failed to parse revocation time for serial " ++ e.serial)
        | some _ =>
          (buildCRLEntries parseTime rest).map
            (fun es =>
              { serial := sn, reasonCode := reasonCodeOf e.revocationReason,
                revTimeStr := e.revokedAt } :: es)

/-- `GenerateCRL`: marker check, read `crlnumber = K`, build the revoked
entries, then (signing and both staged writes succeeding) commit `ca.crl`
and `crlnumber = K + 1`; the index is only read. -/
def generateCRL (s : CAState) (parseTime : String → Option Nat) :
    Except String CAState :=
  if !isInitialized s then
    .error "Error: CA not initialized. Run 'ca init' first."
  else
    match readCounter s.crlnumberFile with
    | none => .error "failed to read CRL number"
    | some k =>
      match buildCRLEntries parseTime s.index with
      | .error e => .error e
      | .ok entries =>
        .ok { s with crlFile := some entries,
                     crlnumberFile := formatSerial (k + 1) ++ "\n" }

/-! ## ListCerts -/

structure CertInfo where
  serial : String
  subject : String
  notAfter : Nat
  status : String
deriving DecidableEq, Repr

/-- `ListCerts` (source lines 601–633).  `parseTime` embeds
`time.Parse(time.RFC3339, ·)`; its error is discarded
(`notAfter, _ := time.Parse(...)`), leaving the zero time `0`.  Display
status: stored `"revoked"` wins, else `"expired"` when `now` is after
`notAfter`, else `"active"`.  Read-only. -/
def listCerts (s : CAState) (parseTime : String → Option Nat) (now : Nat) :
    Except String (List CertInfo) :=
  if !isInitialized s then
    .error "Error: CA not initialized. Run 'ca init' first."
  else
    .ok (s.index.map (fun e =>
      let notAfter := (parseTime e.notAfter).getD 0
      let status :=
        if e.status = "revoked" then "revoked"
        else if notAfter < now then "expired"
        else "active"
      { serial := e.serial, subject := e.subject,
        notAfter := notAfter, status := status }))

/-! ## VerifyCert -/

/-- The certificate handed to `VerifyCert`, already PEM-decoded and parsed;
`sigOkFromCA` is the outcome of `cert.CheckSignatureFrom(caCert)` and
`sigErrMsg` the message of its error when it fails. -/
structure CertModel where
  subject : DName
  serial : Nat
  issuer : DName
  notBefore : Nat
  notAfter : Nat
  sigOkFromCA : Bool
  sigErrMsg : String
deriving DecidableEq, Repr

structure VerifyResult where
  valid : Bool
  subject : String
  serial : String
  issuer : String
  notBefore : Nat
  notAfter : Nat
  sigOK : Bool
  sigErr : String
  expiryOK : Bool
  revStatus : String
deriving DecidableEq, Repr

/-- The CRL scan of `VerifyCert`: first entry whose serial matches. -/
def findCRLEntry (entries : List CRLEntry) (sn : Nat) : Option CRLEntry :=
  entries.find? (fun e => e.serial = sn)

def crlHasSerial (entries : List CRLEntry) (sn : Nat) : Bool :=
  entries.any (fun e => e.serial = sn)

/-- `VerifyCert` (source lines 32–112): marker check; result display fields;
check 1 signature (early return on failure with the later fields left at
their zero values); check 2 expiry (`!now.Before(notBefore) &&
!now.After(notAfter)`); check 3 revocation against `ca.crl` when present;
`valid = sigOK && expiryOK && !isRevoked`. -/
def verifyCert (s : CAState) (cert : CertModel) (now : Nat) :
    Except String VerifyResult :=
  if !isInitialized s then
    .error "Error: CA not initialized. Run 'ca init' first."
  else
    let base : VerifyResult :=
      { valid := false, subject := formatDN cert.subject,
        serial := formatSerialBig cert.serial, issuer := formatDN cert.issuer,
        notBefore := cert.notBefore, notAfter := cert.notAfter,
        sigOK := false, sigErr := "", expiryOK := false, revStatus := "" }
    if !cert.sigOkFromCA then
      .ok { base with sigOK := false, sigErr := cert.sigErrMsg, valid := false }
    else
      let expiryOK := !decide (now < cert.notBefore) && !decide (cert.notAfter < now)
      let checkRev : Bool × String :=
        match s.crlFile with
        | none => (false, "NOT CHECKED (no CRL available)")
        | some entries =>
          match findCRLEntry entries cert.serial with
          | some e =>
            let rn := reasonNameOf e.reasonCode
            let rn := if rn = "" then "unspecified" else rn
            (true, "REVOKED (reason: " ++ rn ++ ", date: " ++ e.revTimeStr ++ ")")
          | none => (false, "OK (not revoked)")
      .ok { base with
            sigOK := true
            expiryOK := expiryOK
            revStatus := checkRev.2
            valid := true && expiryOK && !checkRev.1 }

/-! ## Engine operations as state transformers -/

/-- One engine call; data that cannot influence the data-directory state is
omitted.  `ListCerts` and `VerifyCert` write nothing (their source performs
no file write), so they carry no data at all. -/
inductive EngineOp where
  | initOp (dataDir : String)
  | signOp (csr : CSRInfo) (csrPath nowStr notAfterStr : String)
  | revokeOp (serialHex reason nowStr : String)
  | crlOp (parseTime : String → Option Nat)
  | listOp
  | verifyOp

/-- The data-directory state after one engine call: the new state on
success, the unchanged state on error (each operation's error returns all
happen before its commit). -/
def applyOp (s : CAState) : EngineOp → CAState
  | .initOp d =>
    match initCA s d with
    | .ok s' => s'
    | .error _ => s
  | .signOp csr p n na => signCSRFinal s csr p n na
  | .revokeOp ser r n =>
    match revokeCert s ser r n with
    | .ok s' => s'
    | .error _ => s
  | .crlOp pt =>
    match generateCRL s pt with
    | .ok s' => s'
    | .error _ => s
  | .listOp => s
  | .verifyOp => s

/-- The state of a data directory that was never initialized. -/
def blankDir : CAState :=
  { caKeyFile := false, caCrtFile := false, serialFile := "",
    crlnumberFile := "", index := [], certFiles := [], crlFile := none }

/-- States reachable from a fresh `InitCA` by successful `SignCSR` calls
only (the hypothesis of spec property P1). -/
inductive SignReach : CAState → Prop where
  | freshInit (dataDir : String) (s : CAState) :
      initCA blankDir dataDir = .ok s → SignReach s
  | signStep (s : CAState) (csr : CSRInfo) (p n na : String)
      (r : SignResult) (s' : CAState) :
      SignReach s → signCSR s csr p n na = .ok (r, s') → SignReach s'

/-- The state a fresh `InitCA` commits: `serial = "02\n"`,
`crlnumber = "01\n"`, empty index, empty `certs/`, no `ca.crl`. -/
def freshCAState : CAState :=
  { caKeyFile := true, caCrtFile := true,
    serialFile := formatSerial 2 ++ "\n",
    crlnumberFile := formatSerial 1 ++ "\n",
    index := [], certFiles := [], crlFile := none }

/-- A DN attribute value that survives the codec round trip: non-empty,
free of commas, and carrying no surrounding whitespace. -/
def goodVal (v : String) : Prop :=
  v.toList ≠ [] ∧ trimChars v.toList = v.toList ∧ ',' ∉ v.toList

instance (v : String) : Decidable (goodVal v) := by
  unfold goodVal; infer_instance

/-- A structured name all of whose attribute values are `goodVal`. -/
def goodDName (n : DName) : Prop :=
  goodVal n.commonName
  ∧ (∀ v ∈ n.organization, goodVal v)
  ∧ (∀ v ∈ n.organizationalUnit, goodVal v)
  ∧ (∀ v ∈ n.locality, goodVal v)
  ∧ (∀ v ∈ n.province, goodVal v)
  ∧ (∀ v ∈ n.country, goodVal v)

instance (n : DName) : Decidable (goodDName n) := by
  unfold goodDName; infer_instance

/-- A sample revoked index entry, used to instantiate theorems. -/
def c7Entry : IndexEntry :=
  { serial := "02", subject := "CN=x", notBefore := "a", notAfter := "b",
    status := "revoked", revokedAt := "t1", revocationReason := "keyCompromise" }

/-- A freshly initialized state carrying one revoked entry. -/
def c7State : CAState := { freshCAState with index := [c7Entry] }

/-! # Theorems -/

/-- C1: the claim states the commit sub-phase of `InitCA` renames `serial`,
`crlnumber`, `index.json`, `ca.key`, `ca.crt` in that order, so that the
initialization markers land last and a crash before the last two renames
leaves `IsInitialized` false.  The source renames the markers FIRST:
`initCommitOrder` differs from the claimed order, its first two renames are
exactly `ca.key` and `ca.crt`, and after those two renames alone
`IsInitialized` is already true while `serial` is still missing. -/
theorem initCA_commit_order_markers_first :
    initCommitOrder ≠ specInitCommitOrder
    ∧ initCommitOrder.take 2 = ["ca.key", "ca.crt"]
    ∧ isInitializedFiles (initCommitOrder.take 2) = true
    ∧ "serial" ∉ initCommitOrder.take 2 := by decide

/-- C8: the claim states the failure cleanup of `InitCA` removes the staged
`.tmp` files AND the newly created `certs/` subdirectory.  In the source,
`cleanupTempFiles` removes only the `.tmp` paths: starting from an empty
directory, failing at the third stage write (after `certs/` was created and
`ca.key.tmp`, `ca.crt.tmp` were staged) leaves exactly `["certs/"]` — all
temporary files are gone, no final-named file exists, the data directory
itself survives, but so does `certs/`. -/
theorem initCA_stage_failure_leaves_certs_dir :
    initCAStageFailureFiles [] 2 = ["certs/"]
    ∧ "certs/" ∈ initCAStageFailureFiles [] 2
    ∧ isInitializedFiles (initCAStageFailureFiles [] 2) = false := by decide

/-- C3 counterexample: `RevokeCert` on the serial `"ab"`, unknown to a
freshly initialized CA, does not return the bare §4 text
`certificate with serial ab not found` — it returns that text with the
prefix `Error: `, so the claim's "no additional prefix or suffix text" is
false on the code. -/
theorem revoke_error_text_prefixed_cex :
    revokeCert freshCAState "ab" "unspecified" "t"
      = .error "Error: certificate with serial ab not found"
    ∧ "Error: certificate with serial ab not found"
      ≠ "certificate with serial ab not found" := by decide

/-- C3 (amended): each precondition failure returns the §4 message prefixed
with `Error: `; the not-initialized message additionally carries the suffix
`. Run 'ca init' first.`  Stated for an initialized state `s` (re-init and
unknown-serial revoke) and an uninitialized state `u` (sign). -/
theorem precondition_error_texts (s u : CAState) (dir csrPath nowS naS : String)
    (ser reason nowStr : String) (csr : CSRInfo)
    (hs : isInitialized s = true) (hu : isInitialized u = false)
    (hser : ∀ e ∈ s.index, e.serial ≠ ser) :
    initCA s dir = .error ("Error: CA already initialized at " ++ dir)
    ∧ signCSR u csr csrPath nowS naS
      = .error "Error: CA not initialized. Run 'ca init' first."
    ∧ revokeCert s ser reason nowStr
      = .error ("Error: certificate with serial " ++ ser ++ " not found") := by
  refine ⟨by simp [initCA, hs], by simp [signCSR, hu], ?_⟩
  have hfind : ∀ l : List IndexEntry, (∀ e ∈ l, e.serial ≠ ser) →
      revokeInIndex ser reason nowStr l
        = .error ("Error: certificate with serial " ++ ser ++ " not found") := by
    intro l
    induction l with
    | nil => intro _; rfl
    | cons e rest ih =>
      intro h
      have he : e.serial ≠ ser := h e (by simp)
      simp only [revokeInIndex, if_neg he, ih (fun x hx => h x (by simp [hx]))]
      rfl
  simp [revokeCert, hs, hfind s.index hser]

theorem precondition_error_texts_witness :
    (isInitialized freshCAState = true ∧ isInitialized blankDir = false
      ∧ (∀ e ∈ freshCAState.index, e.serial ≠ "ab"))
    ∧ (initCA freshCAState "d" = .error ("Error: CA already initialized at " ++ "d")
       ∧ signCSR blankDir
           { pemOk := true, parseOk := true, sigOk := true,
             pubKey := .ecdsaKey "P-256", subject := emptyDName } "p" "n" "na"
         = .error "Error: CA not initialized. Run 'ca init' first."
       ∧ revokeCert freshCAState "ab" "r" "t"
         = .error ("Error: certificate with serial " ++ "ab" ++ " not found")) :=
  ⟨⟨by decide, by decide, by decide⟩,
   precondition_error_texts freshCAState blankDir "d" "p" "n" "na" "ab" "r" "t"
     { pemOk := true, parseOk := true, sigOk := true,
       pubKey := .ecdsaKey "P-256", subject := emptyDName }
     (by decide) (by decide) (by decide)⟩

/-- The mutate phase never produces the unsupported-key-algorithm error:
once the key check has passed, `SignCSR` can only fail with other
messages. -/
theorem signCSRMutate_ne_unsupported (s : CAState) (csr : CSRInfo) (now na : String) :
    signCSRMutate s csr now na ≠ .error unsupportedKeyMsg := by
  cases hrc : readCounter s.serialFile with
  | none => simp only [signCSRMutate, hrc]; decide
  | some v => simp [signCSRMutate, hrc]

/-- C4: for an initialized CA and a CSR that decodes, parses, and carries a
valid self-signature, `SignCSR` rejects with the unsupported-key-algorithm
error exactly when the embedded public key is neither P-256 ECDSA nor RSA
with a 2048-bit modulus (in particular for RSA-1024), and in that case the
data directory is left unchanged: the rejection happens before any file is
written. -/
theorem signCSR_key_algorithm_gate (s : CAState) (csr : CSRInfo) (p now na : String)
    (hinit : isInitialized s = true) (hpem : csr.pemOk = true)
    (hparse : csr.parseOk = true) (hsig : csr.sigOk = true) :
    (signCSR s csr p now na = .error unsupportedKeyMsg
      ↔ keyAlgoSupported csr.pubKey = false)
    ∧ (keyAlgoSupported csr.pubKey = false → signCSRFinal s csr p now na = s) := by
  have hmut := signCSRMutate_ne_unsupported s csr now na
  constructor
  · cases hk : csr.pubKey with
    | ecdsaKey curve =>
      by_cases hc : curve = "P-256"
      · simp [signCSR, hinit, hpem, hparse, hsig, hk, hc, keyAlgoSupported, hmut]
      · simp [signCSR, hinit, hpem, hparse, hsig, hk, hc, keyAlgoSupported]
    | rsaKey bits =>
      by_cases hb : bits = 2048
      · simp [signCSR, hinit, hpem, hparse, hsig, hk, hb, keyAlgoSupported, hmut]
      · simp [signCSR, hinit, hpem, hparse, hsig, hk, hb, keyAlgoSupported]
    | otherKey => simp [signCSR, hinit, hpem, hparse, hsig, hk, keyAlgoSupported]
  · intro hks
    cases hk : csr.pubKey with
    | ecdsaKey curve =>
      rw [hk] at hks
      simp only [keyAlgoSupported, decide_eq_false_iff_not] at hks
      simp [signCSRFinal, signCSR, hinit, hpem, hparse, hsig, hk, hks]
    | rsaKey bits =>
      rw [hk] at hks
      simp only [keyAlgoSupported, decide_eq_false_iff_not] at hks
      simp [signCSRFinal, signCSR, hinit, hpem, hparse, hsig, hk, hks]
    | otherKey =>
      simp [signCSRFinal, signCSR, hinit, hpem, hparse, hsig, hk]

theorem signCSR_key_algorithm_gate_witness :
    (isInitialized freshCAState = true
      ∧ ({ pemOk := true, parseOk := true, sigOk := true, pubKey := .rsaKey 1024,
           subject := emptyDName } : CSRInfo).pemOk = true)
    ∧ ((signCSR freshCAState
          { pemOk := true, parseOk := true, sigOk := true, pubKey := .rsaKey 1024,
            subject := emptyDName } "p" "n" "na" = .error unsupportedKeyMsg
        ↔ keyAlgoSupported (.rsaKey 1024) = false)
       ∧ (keyAlgoSupported (.rsaKey 1024) = false →
          signCSRFinal freshCAState
            { pemOk := true, parseOk := true, sigOk := true, pubKey := .rsaKey 1024,
              subject := emptyDName } "p" "n" "na" = freshCAState)) :=
  ⟨⟨by decide, by decide⟩,
   signCSR_key_algorithm_gate freshCAState
     { pemOk := true, parseOk := true, sigOk := true, pubKey := .rsaKey 1024,
       subject := emptyDName } "p" "n" "na"
     (by decide) (by decide) (by decide) (by decide)⟩

/-- C5: when the certificate's signature does not verify against the CA
certificate, `VerifyCert` reports `sig_ok = false`, `valid = false`, and
returns at once with the expiry and revocation fields at their zero values
(`expiry_ok = false`, `revocation_status = ""`): no further check is
reported. -/
theorem verifyCert_sig_failure_short_circuit (s : CAState) (cert : CertModel)
    (now : Nat) (hinit : isInitialized s = true)
    (hsig : cert.sigOkFromCA = false) :
    verifyCert s cert now = .ok
      { valid := false, subject := formatDN cert.subject,
        serial := formatSerialBig cert.serial, issuer := formatDN cert.issuer,
        notBefore := cert.notBefore, notAfter := cert.notAfter,
        sigOK := false, sigErr := cert.sigErrMsg, expiryOK := false,
        revStatus := "" } := by
  simp [verifyCert, hinit, hsig]

theorem verifyCert_sig_failure_short_circuit_witness :
    (isInitialized freshCAState = true
      ∧ ({ subject := emptyDName, serial := 2, issuer := emptyDName, notBefore := 0,
           notAfter := 10, sigOkFromCA := false, sigErrMsg := "m" } : CertModel).sigOkFromCA
        = false)
    ∧ verifyCert freshCAState
        { subject := emptyDName, serial := 2, issuer := emptyDName, notBefore := 0,
          notAfter := 10, sigOkFromCA := false, sigErrMsg := "m" } 5
      = .ok { valid := false, subject := formatDN emptyDName,
              serial := formatSerialBig 2, issuer := formatDN emptyDName,
              notBefore := 0, notAfter := 10, sigOK := false, sigErr := "m",
              expiryOK := false, revStatus := "" } :=
  ⟨⟨by decide, by decide⟩,
   verifyCert_sig_failure_short_circuit freshCAState
     { subject := emptyDName, serial := 2, issuer := emptyDName, notBefore := 0,
       notAfter := 10, sigOkFromCA := false, sigErrMsg := "m" } 5
     (by decide) (by decide)⟩

/-- The first matching CRL entry is absent exactly when no entry carries
the serial. -/
theorem findCRLEntry_none_iff (es : List CRLEntry) (sn : Nat) :
    findCRLEntry es sn = none ↔ crlHasSerial es sn = false := by
  simp [findCRLEntry, crlHasSerial, List.find?_eq_none, List.any_eq_false]

/-- C6: when the signature verifies, `VerifyCert` reports
`expiry_ok = true` iff `now` lies within `[not_before, not_after]`
inclusive; an absent `ca.crl` yields `revocation_status =
"NOT CHECKED (no CRL available)"` without invalidating; and
`valid = true` iff `sig_ok`, `expiry_ok`, and the certificate's serial is
not listed in the loaded CRL. -/
theorem verifyCert_checks_after_signature (s : CAState) (cert : CertModel)
    (now : Nat) (hinit : isInitialized s = true)
    (hsig : cert.sigOkFromCA = true) :
    ∃ r, verifyCert s cert now = .ok r
      ∧ r.sigOK = true
      ∧ (r.expiryOK = true ↔ (cert.notBefore ≤ now ∧ now ≤ cert.notAfter))
      ∧ (s.crlFile = none → r.revStatus = "NOT CHECKED (no CRL available)")
      ∧ (r.valid = true ↔ (r.sigOK = true ∧ r.expiryOK = true
          ∧ ∀ entries, s.crlFile = some entries
              → crlHasSerial entries cert.serial = false)) := by
  cases hcrl : s.crlFile with
  | none =>
    refine ⟨_, by simp only [verifyCert, hinit, hsig, hcrl]; rfl, ?_, ?_, ?_, ?_⟩
    · rfl
    · simp [Nat.not_lt]
    · intro _; rfl
    · simp [Nat.not_lt, hcrl]
  | some es =>
    cases hfind : findCRLEntry es cert.serial with
    | none =>
      refine ⟨_, by simp only [verifyCert, hinit, hsig, hcrl, hfind]; rfl, ?_, ?_, ?_, ?_⟩
      · rfl
      · simp [Nat.not_lt]
      · intro h; simp [hcrl] at h
      · have : crlHasSerial es cert.serial = false :=
          (findCRLEntry_none_iff es cert.serial).mp hfind
        simp [Nat.not_lt, hcrl, this]
    | some e =>
      refine ⟨_, by simp only [verifyCert, hinit, hsig, hcrl, hfind]; rfl, ?_, ?_, ?_, ?_⟩
      · rfl
      · simp [Nat.not_lt]
      · intro h; simp [hcrl] at h
      · have hmem : crlHasSerial es cert.serial = true := by
          have h1 := List.find?_some hfind
          have h2 := List.mem_of_find?_eq_some hfind
          simp [crlHasSerial]
          exact ⟨e, h2, by simpa using h1⟩
        simp [hcrl, hmem]

theorem verifyCert_checks_after_signature_witness :
    (isInitialized freshCAState = true
      ∧ ({ subject := emptyDName, serial := 2, issuer := emptyDName, notBefore := 1,
           notAfter := 10, sigOkFromCA := true, sigErrMsg := "" } : CertModel).sigOkFromCA
        = true)
    ∧ ∃ r, verifyCert freshCAState
          { subject := emptyDName, serial := 2, issuer := emptyDName, notBefore := 1,
            notAfter := 10, sigOkFromCA := true, sigErrMsg := "" } 5 = .ok r
        ∧ r.sigOK = true
        ∧ (r.expiryOK = true ↔ ((1 : Nat) ≤ 5 ∧ (5 : Nat) ≤ 10))
        ∧ (freshCAState.crlFile = none
            → r.revStatus = "NOT CHECKED (no CRL available)")
        ∧ (r.valid = true ↔ (r.sigOK = true ∧ r.expiryOK = true
            ∧ ∀ entries, freshCAState.crlFile = some entries
                → crlHasSerial entries 2 = false)) :=
  ⟨⟨by decide, by decide⟩,
   verifyCert_checks_after_signature freshCAState
     { subject := emptyDName, serial := 2, issuer := emptyDName, notBefore := 1,
       notAfter := 10, sigOkFromCA := true, sigErrMsg := "" } 5
     (by decide) (by decide)⟩

/-- C10: an index entry whose `not_after` does not parse as RFC 3339 does
not make `ListCerts` fail: the parse error is discarded, `not_after`
becomes the zero time, and a non-revoked such entry is displayed with
status `"expired"` and a zero `NOT AFTER` value. -/
theorem listCerts_unparseable_notafter (s : CAState)
    (parseTime : String → Option Nat) (now i : Nat) (e : IndexEntry)
    (hinit : isInitialized s = true) (hi : s.index[i]? = some e)
    (hparse : parseTime e.notAfter = none) (hstat : e.status ≠ "revoked")
    (hnow : 0 < now) :
    ∃ l, listCerts s parseTime now = .ok l
      ∧ l[i]? = some { serial := e.serial, subject := e.subject,
                       notAfter := 0, status := "expired" } := by
  refine ⟨_, by simp only [listCerts, hinit]; rfl, ?_⟩
  simp [List.getElem?_map, hi, hparse, hstat, hnow]

theorem listCerts_unparseable_notafter_witness :
    (isInitialized
        { freshCAState with index :=
            [{ serial := "02", subject := "CN=x", notBefore := "t",
               notAfter := "garbage", status := "active", revokedAt := "",
               revocationReason := "" }] } = true
      ∧ (fun _ : String => (none : Option Nat)) "garbage" = none ∧ (0 : Nat) < 1)
    ∧ ∃ l, listCerts
          { freshCAState with index :=
              [{ serial := "02", subject := "CN=x", notBefore := "t",
                 notAfter := "garbage", status := "active", revokedAt := "",
                 revocationReason := "" }] }
          (fun _ => none) 1 = .ok l
        ∧ l[0]? = some { serial := "02", subject := "CN=x", notAfter := 0,
                         status := "expired" } :=
  ⟨⟨by decide, rfl, by decide⟩,
   listCerts_unparseable_notafter
     { freshCAState with index :=
         [{ serial := "02", subject := "CN=x", notBefore := "t",
            notAfter := "garbage", status := "active", revokedAt := "",
            revocationReason := "" }] }
     (fun _ => none) 1 0
     { serial := "02", subject := "CN=x", notBefore := "t",
       notAfter := "garbage", status := "active", revokedAt := "",
       revocationReason := "" }
     (by decide) (by decide) rfl (by decide) (by decide)⟩

/-! ## Hex round trip: `ReadCounter` recovers what `FormatSerial` wrote -/

theorem parseHexCore_append (l₁ l₂ : List Char) :
    ∀ acc, parseHexCore (l₁ ++ l₂) acc
      = match parseHexCore l₁ acc with
        | none => none
        | some v => parseHexCore l₂ v := by
  induction l₁ with
  | nil => intro acc; rfl
  | cons c rest ih =>
    intro acc
    simp only [List.cons_append, parseHexCore]
    cases hexVal c with
    | none => rfl
    | some d => exact ih (16 * acc + d)

theorem hexVal_hexDigitChar (n : Nat) (h : n < 16) :
    hexVal (hexDigitChar n) = some n := by
  interval_cases n <;> decide

theorem toHexAux_length_pos (fuel n : Nat) (h : n < fuel) :
    0 < (toHexAux fuel n).length := by
  cases fuel with
  | zero => omega
  | succ f =>
    by_cases h16 : n < 16
    · simp [toHexAux, h16]
    · simp [toHexAux, h16]

theorem toHexAux_spec (fuel : Nat) :
    ∀ n acc, n < fuel →
      parseHexCore (toHexAux fuel n) acc
        = some (acc * 16 ^ (toHexAux fuel n).length + n) := by
  induction fuel with
  | zero => intro n _ h; omega
  | succ f ih =>
    intro n acc h
    by_cases h16 : n < 16
    · simp only [toHexAux, if_pos h16, parseHexCore, hexVal_hexDigitChar n h16]
      simp; ring
    · have hd : n / 16 < f := by omega
      simp only [toHexAux, if_neg h16]
      rw [parseHexCore_append]
      rw [ih (n / 16) acc hd]
      simp only [parseHexCore, hexVal_hexDigitChar (n % 16) (Nat.mod_lt n (by omega)),
        List.length_append, List.length_singleton]
      congr 1
      rw [pow_succ]
      calc 16 * (acc * 16 ^ (toHexAux f (n / 16)).length + n / 16) + n % 16
          = acc * (16 ^ (toHexAux f (n / 16)).length * 16)
            + (16 * (n / 16) + n % 16) := by ring
        _ = acc * (16 ^ (toHexAux f (n / 16)).length * 16) + n := by
            rw [Nat.div_add_mod]

theorem toHexAux_digits (fuel : Nat) :
    ∀ n c, n < fuel → c ∈ toHexAux fuel n → (hexVal c).isSome = true := by
  induction fuel with
  | zero => intro n c h; omega
  | succ f ih =>
    intro n c h hc
    by_cases h16 : n < 16
    · simp only [toHexAux, if_pos h16, List.mem_singleton] at hc
      rw [hc, hexVal_hexDigitChar n h16]; rfl
    · simp only [toHexAux, if_neg h16, List.mem_append, List.mem_singleton] at hc
      cases hc with
      | inl hm => exact ih (n / 16) c (by omega) hm
      | inr he =>
        rw [he, hexVal_hexDigitChar (n % 16) (Nat.mod_lt n (by omega))]; rfl

theorem hexVal_not_space (c : Char) (h : (hexVal c).isSome = true) :
    goIsSpace c = false := by
  cases hsp : goIsSpace c with
  | false => rfl
  | true =>
    simp only [goIsSpace, Bool.or_eq_true, decide_eq_true_eq] at hsp
    rcases hsp with ((((h1 | h1) | h1) | h1) | h1) | h1 <;>
      (subst h1; exact absurd h (by decide))

theorem trim_of_nonspace_newline (l : List Char)
    (hne : l ≠ []) (hns : ∀ c ∈ l, goIsSpace c = false) :
    trimChars (l ++ ['\n']) = l := by
  obtain ⟨c, t, rfl⟩ : ∃ c t, l = c :: t := by
    cases l with
    | nil => exact absurd rfl hne
    | cons c t => exact ⟨c, t, rfl⟩
  have hc : goIsSpace c = false := hns c (by simp)
  have h1 : List.dropWhile goIsSpace ((c :: t) ++ ['\n']) = (c :: t) ++ ['\n'] := by
    rw [List.cons_append, List.dropWhile_cons, hc]
    simp
  unfold trimChars
  rw [h1, List.reverse_append]
  rw [show List.reverse ['\n'] = ['\n'] from rfl, List.singleton_append,
    List.dropWhile_cons, show goIsSpace '\n' = true from by decide]
  simp only [if_true]
  cases hr : (c :: t).reverse with
  | nil => simp at hr
  | cons b rt =>
    have hb : b ∈ c :: t := by
      have hmem : b ∈ (c :: t).reverse := by rw [hr]; exact List.mem_cons_self b rt
      rw [List.mem_reverse] at hmem
      exact hmem
    rw [List.dropWhile_cons, hns b hb]
    simp only [Bool.false_eq_true, if_false]
    rw [← hr, List.reverse_reverse]

theorem toList_mk (l : List Char) : (String.mk l).toList = l := rfl

theorem toList_append (a b : String) : (a ++ b).toList = a.toList ++ b.toList := by
  cases a; cases b; rfl

/-- R2 at the level the engine uses it: reading back the serial file that
`FormatSerial`-then-newline wrote recovers the counter value. -/
theorem readCounter_formatSerial (n : Nat) :
    readCounter (formatSerial n ++ "\n") = some n := by
  have hlt : n < n + 1 := Nat.lt_succ_self n
  have hdig : ∀ c ∈ toHexChars n, (hexVal c).isSome = true := by
    intro c hc; exact toHexAux_digits (n + 1) n c hlt hc
  have hlen : 0 < (toHexChars n).length := toHexAux_length_pos (n + 1) n hlt
  have hcore : parseHexCore (toHexChars n) 0
      = some (0 * 16 ^ (toHexChars n).length + n) := toHexAux_spec (n + 1) n 0 hlt
  rw [zero_mul, zero_add] at hcore
  unfold readCounter formatSerial
  rw [toList_append]
  show parseHexNat (trimChars
    ((if (toHexChars n).length < 2 then
        List.replicate (2 - (toHexChars n).length) '0' ++ toHexChars n
      else toHexChars n) ++ ('\n'.toString).toList)) = some n
  by_cases h2 : (toHexChars n).length < 2
  · have hlen1 : (toHexChars n).length = 1 := by omega
    rw [if_pos h2, hlen1]
    have hrep : List.replicate (2 - 1) '0' = ['0'] := by decide
    rw [hrep]
    have hns : ∀ c ∈ '0' :: toHexChars n, goIsSpace c = false := by
      intro c hc
      rcases List.mem_cons.mp hc with h0 | hm
      · rw [h0]; decide
      · exact hexVal_not_space c (hdig c hm)
    have : (['0'] ++ toHexChars n) ++ ('\n'.toString).toList
        = ('0' :: toHexChars n) ++ ['\n'] := by rfl
    rw [this, trim_of_nonspace_newline ('0' :: toHexChars n) (by simp) hns]
    unfold parseHexNat
    rw [if_neg (by simp)]
    simp only [parseHexCore, show hexVal '0' = some 0 from by decide]
    rw [show 16 * 0 + 0 = 0 from rfl, hcore]
  · rw [if_neg h2]
    have hns : ∀ c ∈ toHexChars n, goIsSpace c = false := fun c hc =>
      hexVal_not_space c (hdig c hc)
    have hne : toHexChars n ≠ [] := by
      intro h; rw [h] at hlen; simp at hlen
    have : toHexChars n ++ ('\n'.toString).toList = toHexChars n ++ ['\n'] := rfl
    rw [this, trim_of_nonspace_newline (toHexChars n) hne hns]
    unfold parseHexNat
    rw [if_neg hne, hcore]

/-- A successful `SignCSR` is a successful mutate phase: every validate
check must have passed. -/
theorem signCSR_ok_mutate (s : CAState) (csr : CSRInfo) (p n na : String)
    (r : SignResult) (s' : CAState)
    (h : signCSR s csr p n na = .ok (r, s')) :
    signCSRMutate s csr n na = .ok (r, s') := by
  unfold signCSR at h
  split at h
  · exact absurd h (by simp)
  · split at h
    · exact absurd h (by simp)
    · split at h
      · exact absurd h (by simp)
      · split at h
        · exact absurd h (by simp)
        · split at h
          · split at h
            · exact absurd h (by simp)
            · exact h
          · split at h
            · exact absurd h (by simp)
            · exact h
          · exact absurd h (by simp)

/-- Shape of the state a successful mutate phase commits, given the value
the serial counter parsed to. -/
theorem signCSRMutate_ok_inv (s : CAState) (csr : CSRInfo) (n na : String)
    (r : SignResult) (s' : CAState) (v : Nat)
    (hrc : readCounter s.serialFile = some v)
    (h : signCSRMutate s csr n na = .ok (r, s')) :
    s' = { s with
           serialFile := formatSerial (v + 1) ++ "\n"
           index := s.index ++
             [{ serial := formatSerial v, subject := formatDN csr.subject,
                notBefore := n, notAfter := na, status := "active",
                revokedAt := "", revocationReason := "" }]
           certFiles := s.certFiles ++ [formatSerial v ++ ".pem"] } := by
  unfold signCSRMutate at h
  rw [hrc] at h
  simp only [Except.ok.injEq, Prod.mk.injEq] at h
  exact h.2.symm

/-- C2: after any sequence of successful `SignCSR` calls from a freshly
initialized data directory, the serial file holds the lowercase hex of
`2 + N` (newline-terminated) where `N` is both the number of index entries
and the number of files under `certs/`; moreover the `i`-th issued
certificate file is named after its entry's serial and that serial is
`hex(2 + i)` — each sign consumed the then-current counter value and
advanced it by one. -/
theorem signCSR_serial_counter_invariant (s : CAState) (h : SignReach s) :
    s.serialFile = formatSerial (2 + s.index.length) ++ "\n"
    ∧ s.certFiles = s.index.map (fun e => e.serial ++ ".pem")
    ∧ (∀ i e, s.index[i]? = some e → e.serial = formatSerial (2 + i)) := by
  induction h with
  | freshInit d s heq =>
    have hval : initCA blankDir d = .ok freshCAState := rfl
    rw [hval] at heq
    have hs : freshCAState = s := Except.ok.inj heq
    subst hs
    refine ⟨rfl, rfl, ?_⟩
    intro i e hie
    simp [freshCAState] at hie
  | signStep s csr p n na r s' hreach heq ih =>
    obtain ⟨ih1, ih2, ih3⟩ := ih
    have hrc : readCounter s.serialFile = some (2 + s.index.length) := by
      rw [ih1]; exact readCounter_formatSerial _
    have hm := signCSR_ok_mutate s csr p n na r s' heq
    have hs' := signCSRMutate_ok_inv s csr n na r s' _ hrc hm
    subst hs'
    refine ⟨?_, ?_, ?_⟩
    · simp only [List.length_append, List.length_singleton]
      rw [Nat.add_assoc]
    · simp only [List.map_append, List.map_cons, List.map_nil]
      rw [ih2]
    · intro i e hie
      simp only [] at hie
      rw [List.getElem?_append] at hie
      by_cases hlt : i < s.index.length
      · rw [if_pos hlt] at hie
        exact ih3 i e hie
      · rw [if_neg hlt] at hie
        cases hd : i - s.index.length with
        | zero =>
          rw [hd] at hie
          simp only [List.getElem?_cons_zero, Option.some.injEq] at hie
          rw [← hie, show i = s.index.length from by omega]
        | succ k =>
          rw [hd] at hie
          simp at hie

theorem signCSR_serial_counter_invariant_witness :
    SignReach freshCAState
    ∧ (freshCAState.serialFile = formatSerial (2 + freshCAState.index.length) ++ "\n"
       ∧ freshCAState.certFiles = freshCAState.index.map (fun e => e.serial ++ ".pem")
       ∧ (∀ i e, freshCAState.index[i]? = some e → e.serial = formatSerial (2 + i))) :=
  ⟨SignReach.freshInit "d" freshCAState rfl,
   signCSR_serial_counter_invariant freshCAState
     (SignReach.freshInit "d" freshCAState rfl)⟩

/-! ## RevokeCert inversions -/

theorem revokeInIndex_not_found (ser reason nowStr : String) (l : List IndexEntry)
    (h : ∀ e ∈ l, e.serial ≠ ser) :
    revokeInIndex ser reason nowStr l
      = .error ("Error: certificate with serial " ++ ser ++ " not found") := by
  induction l with
  | nil => rfl
  | cons a rest ih =>
    have ha : a.serial ≠ ser := h a (by simp)
    simp only [revokeInIndex, if_neg ha,
      ih (fun x hx => h x (List.mem_cons_of_mem a hx))]
    rfl

theorem revokeInIndex_already_revoked (ser reason nowStr : String)
    (l : List IndexEntry) (hex : ∃ e ∈ l, e.serial = ser)
    (hrev : ∀ e ∈ l, e.serial = ser → e.status = "revoked") :
    revokeInIndex ser reason nowStr l
      = .error ("Error: certificate with serial " ++ ser ++ " is already revoked") := by
  induction l with
  | nil => obtain ⟨e, he, _⟩ := hex; simp at he
  | cons a rest ih =>
    by_cases ha : a.serial = ser
    · have hst : a.status = "revoked" := hrev a (by simp) ha
      simp only [revokeInIndex, if_pos ha, if_pos hst]
    · obtain ⟨e, he, hes⟩ := hex
      have hmem : e ∈ rest := by
        rcases List.mem_cons.mp he with h1 | h1
        · rw [← h1] at ha; exact absurd hes ha
        · exact h1
      simp only [revokeInIndex, if_neg ha]
      rw [ih ⟨e, hmem, hes⟩ (fun x hx hxs => hrev x (List.mem_cons_of_mem a hx) hxs)]
      rfl


theorem revokeInIndex_preserves_revoked (ser reason nowStr : String)
    (l l' : List IndexEntry) (h : revokeInIndex ser reason nowStr l = .ok l') :
    ∀ (i : Nat) (e : IndexEntry),
      l[i]? = some e → e.status = "revoked" → l'[i]? = some e := by
  induction l generalizing l' with
  | nil => simp [revokeInIndex] at h
  | cons a rest ih =>
    intro i e hie hrev
    by_cases ha : a.serial = ser
    · by_cases hst : a.status = "revoked"
      · simp [revokeInIndex, ha, hst] at h
      · simp only [revokeInIndex, if_pos ha, if_neg hst, Except.ok.injEq] at h
        subst h
        cases i with
        | zero =>
          simp only [List.getElem?_cons_zero, Option.some.injEq] at hie
          rw [← hie] at hrev
          exact absurd hrev hst
        | succ j => simpa using hie
    · simp only [revokeInIndex, if_neg ha] at h
      cases hr : revokeInIndex ser reason nowStr rest with
      | error m => rw [hr] at h; simp [Except.map] at h
      | ok rest' =>
        rw [hr] at h
        simp only [Except.map, Except.ok.injEq] at h
        subst h
        cases i with
        | zero => simpa using hie
        | succ j =>
          have hres := ih rest' hr j e (by simpa using hie) hrev
          simpa using hres

/-- C7: an index entry that is `"revoked"` stays exactly as it is (status,
`revoked_at`, `revocation_reason`) across every engine operation;
`RevokeCert` on a serial that is absent, or whose entries are already
revoked, fails with the respective error before the mutate phase and
leaves the data-directory state identical. -/
theorem revoked_entry_permanent (s : CAState) (op : EngineOp) (i : Nat)
    (e : IndexEntry) (ser reason nowStr : String)
    (hinit : isInitialized s = true) :
    (s.index[i]? = some e → e.status = "revoked" →
       (applyOp s op).index[i]? = some e)
    ∧ ((∀ x ∈ s.index, x.serial ≠ ser) →
       revokeCert s ser reason nowStr
         = .error ("Error: certificate with serial " ++ ser ++ " not found")
       ∧ applyOp s (.revokeOp ser reason nowStr) = s)
    ∧ ((∃ x ∈ s.index, x.serial = ser) →
       (∀ x ∈ s.index, x.serial = ser → x.status = "revoked") →
       revokeCert s ser reason nowStr
         = .error ("Error: certificate with serial " ++ ser ++ " is already revoked")
       ∧ applyOp s (.revokeOp ser reason nowStr) = s) := by
  refine ⟨?_, ?_, ?_⟩
  · intro hie hrev
    have hlt : i < s.index.length := by
      by_contra hcon
      push_neg at hcon
      rw [List.getElem?_eq_none hcon] at hie
      exact Option.noConfusion hie
    cases op with
    | initOp d => simp [applyOp, initCA, hinit, hie]
    | signOp csr p nn na =>
      simp only [applyOp]
      unfold signCSRFinal
      cases hsig : signCSR s csr p nn na with
      | error m => exact hie
      | ok pr =>
        obtain ⟨r, s'⟩ := pr
        have hm := signCSR_ok_mutate s csr p nn na r s' hsig
        unfold signCSRMutate at hm
        cases hrc : readCounter s.serialFile with
        | none => rw [hrc] at hm; simp at hm
        | some v =>
          rw [hrc] at hm
          simp only [Except.ok.injEq, Prod.mk.injEq] at hm
          show s'.index[i]? = some e
          rw [← hm.2]
          dsimp only
          rw [List.getElem?_append, if_pos hlt]
          exact hie
    | revokeOp ser' r' n' =>
      simp only [applyOp]
      cases hr : revokeCert s ser' r' n' with
      | error m => exact hie
      | ok s'' =>
        show s''.index[i]? = some e
        simp [revokeCert, hinit] at hr
        cases hri : revokeInIndex ser' r' n' s.index with
        | error m => rw [hri] at hr; simp at hr
        | ok idx =>
          rw [hri] at hr
          simp only [Except.ok.injEq] at hr
          have hidx : s''.index = idx := by rw [← hr]
          rw [hidx]
          exact revokeInIndex_preserves_revoked ser' r' n' s.index idx hri i e hie hrev
    | crlOp pt =>
      simp only [applyOp]
      cases hg : generateCRL s pt with
      | error m => exact hie
      | ok s' =>
        show s'.index[i]? = some e
        simp [generateCRL, hinit] at hg
        cases hk : readCounter s.crlnumberFile with
        | none => rw [hk] at hg; simp at hg
        | some k =>
          rw [hk] at hg
          cases hb : buildCRLEntries pt s.index with
          | error m => rw [hb] at hg; simp at hg
          | ok entries =>
            rw [hb] at hg
            simp only [Except.ok.injEq] at hg
            have hidx : s'.index = s.index := by rw [← hg]
            rw [hidx]
            exact hie
    | listOp => exact hie
    | verifyOp => exact hie
  · intro hser
    have herr := revokeInIndex_not_found ser reason nowStr s.index hser
    exact ⟨by simp [revokeCert, hinit, herr],
           by simp [applyOp, revokeCert, hinit, herr]⟩
  · intro hex hrev
    have herr := revokeInIndex_already_revoked ser reason nowStr s.index hex hrev
    exact ⟨by simp [revokeCert, hinit, herr],
           by simp [applyOp, revokeCert, hinit, herr]⟩

theorem revoked_entry_permanent_witness :
    isInitialized c7State = true
    ∧ ((c7State.index[0]? = some c7Entry → c7Entry.status = "revoked" →
         (applyOp c7State (.revokeOp "02" "unspecified" "t2")).index[0]?
           = some c7Entry)
       ∧ ((∀ x ∈ c7State.index, x.serial ≠ "02") →
           revokeCert c7State "02" "unspecified" "t2"
             = .error ("Error: certificate with serial " ++ "02" ++ " not found")
           ∧ applyOp c7State (.revokeOp "02" "unspecified" "t2") = c7State)
       ∧ ((∃ x ∈ c7State.index, x.serial = "02") →
           (∀ x ∈ c7State.index, x.serial = "02" → x.status = "revoked") →
           revokeCert c7State "02" "unspecified" "t2"
             = .error ("Error: certificate with serial " ++ "02"
                 ++ " is already revoked")
           ∧ applyOp c7State (.revokeOp "02" "unspecified" "t2") = c7State)) :=
  ⟨by decide,
   revoked_entry_permanent c7State (.revokeOp "02" "unspecified" "t2") 0 c7Entry
     "02" "unspecified" "t2" (by decide)⟩

/-! ## Name codec round trip -/

theorem splitComma_ne_nil (l : List Char) : splitComma l ≠ [] := by
  cases l with
  | nil => simp [splitComma]
  | cons c rest =>
    unfold splitComma
    cases splitComma rest with
    | nil => simp
    | cons p ps =>
      by_cases hc : c = ','
      · simp [hc]
      · simp [hc]

theorem splitComma_no_comma (p : List Char) (h : ',' ∉ p) : splitComma p = [p] := by
  induction p with
  | nil => rfl
  | cons c rest ih =>
    have hc : c ≠ ',' := by
      intro hcc; exact h (by simp [hcc])
    have hrest : ',' ∉ rest := fun hm => h (List.mem_cons_of_mem c hm)
    unfold splitComma
    rw [ih hrest]
    simp [hc]

theorem splitComma_append (p l : List Char) (h : ',' ∉ p) :
    splitComma (p ++ ',' :: l) = p :: splitComma l := by
  induction p with
  | nil =>
    simp only [List.nil_append]
    conv_lhs => rw [splitComma]
    cases hs : splitComma l with
    | nil => exact absurd hs (splitComma_ne_nil l)
    | cons q qs => simp
  | cons c rest ih =>
    have hc : c ≠ ',' := by
      intro hcc; exact h (by simp [hcc])
    have hrest : ',' ∉ rest := fun hm => h (List.mem_cons_of_mem c hm)
    simp only [List.cons_append]
    conv_lhs => rw [splitComma]
    rw [ih hrest]
    simp [hc]

theorem splitComma_joinComma (parts : List (List Char)) (hne : parts ≠ [])
    (h : ∀ p ∈ parts, ',' ∉ p) :
    splitComma (joinComma parts) = parts := by
  induction parts with
  | nil => exact absurd rfl hne
  | cons p ps ih =>
    cases ps with
    | nil => exact splitComma_no_comma p (h p (by simp))
    | cons q qs =>
      show splitComma (p ++ ',' :: joinComma (q :: qs)) = p :: q :: qs
      rw [splitComma_append p _ (h p (by simp))]
      rw [ih (by simp) (fun x hx => h x (List.mem_cons_of_mem p hx))]

theorem dropWhile_eq_self_head (c : Char) (t : List Char)
    (h : List.dropWhile goIsSpace (c :: t) = c :: t) : goIsSpace c = false := by
  cases hc : goIsSpace c with
  | false => rfl
  | true =>
    rw [List.dropWhile_cons, hc] at h
    simp only [if_true] at h
    have hlen := congrArg List.length h
    rw [List.length_cons] at hlen
    have hle : (t.dropWhile goIsSpace).length ≤ t.length :=
      (List.dropWhile_suffix goIsSpace).sublist.length_le
    omega

/-- If trimming changes nothing, neither one-sided strip changes anything. -/
theorem trim_eq_self_parts (l : List Char) (h : trimChars l = l) :
    List.dropWhile goIsSpace l = l
    ∧ List.dropWhile goIsSpace l.reverse = l.reverse := by
  have hlen : l.length = (trimChars l).length := by rw [h]
  unfold trimChars at hlen
  rw [List.length_reverse] at hlen
  have hA : (List.dropWhile goIsSpace l).length ≤ l.length :=
    (List.dropWhile_suffix goIsSpace).sublist.length_le
  have hB : (List.dropWhile goIsSpace (List.dropWhile goIsSpace l).reverse).length
      ≤ (List.dropWhile goIsSpace l).reverse.length :=
    (List.dropWhile_suffix goIsSpace).sublist.length_le
  rw [List.length_reverse] at hB
  have hAlen : (List.dropWhile goIsSpace l).length = l.length := by omega
  have hAeq : List.dropWhile goIsSpace l = l :=
    (List.dropWhile_suffix goIsSpace).sublist.eq_of_length hAlen
  refine ⟨hAeq, ?_⟩
  have hrew : (List.dropWhile goIsSpace l).reverse = l.reverse := by rw [hAeq]
  rw [hrew] at hlen
  have hBlen : (List.dropWhile goIsSpace l.reverse).length = l.reverse.length := by
    rw [List.length_reverse]
    omega
  exact (List.dropWhile_suffix goIsSpace).sublist.eq_of_length hBlen

/-- Build direction: a list whose first and last characters are non-space
is left unchanged by trimming. -/
theorem trimChars_eq_self_cons (c : Char) (t : List Char)
    (hc : goIsSpace c = false)
    (hlast : ∀ b rt, (c :: t).reverse = b :: rt → goIsSpace b = false) :
    trimChars (c :: t) = c :: t := by
  unfold trimChars
  rw [List.dropWhile_cons, hc]
  simp only [Bool.false_eq_true, if_false]
  cases hr : (c :: t).reverse with
  | nil => simp at hr
  | cons b rt =>
    rw [List.dropWhile_cons, hlast b rt hr]
    simp only [Bool.false_eq_true, if_false]
    rw [← hr, List.reverse_reverse]

/-- A `TYPE=VALUE` component with a good value is left unchanged by the
trimming `ParseDN` applies to it. -/
theorem trimChars_comp (c : Char) (mid v : List Char)
    (hc : goIsSpace c = false) (hvne : v ≠ []) (hvt : trimChars v = v) :
    trimChars (c :: mid ++ v) = c :: mid ++ v := by
  apply trimChars_eq_self_cons
  · exact hc
  · intro b rt hr
    cases hv : v.reverse with
    | nil => exact absurd (by simpa using hv) hvne
    | cons b0 rt0 =>
      have hrev : (c :: mid ++ v).reverse = b0 :: (rt0 ++ (mid.reverse ++ [c])) := by
        simp [hv]
      have hr2 : (c :: mid ++ v).reverse = b :: rt := hr
      rw [hrev] at hr2
      have hb : b = b0 := by
        injection hr2 with h1 _
        exact h1.symm
      rw [hb]
      have hd := (trim_eq_self_parts v hvt).2
      rw [hv] at hd
      exact dropWhile_eq_self_head b0 rt0 hd

theorem applyComponent_CN (n : DName) (v : String) (hv : goodVal v) :
    applyComponent n (['C', 'N', '='] ++ v.toList)
      = .ok { n with commonName := v } := by
  obtain ⟨hne, ht, _⟩ := hv
  unfold applyComponent
  rw [show splitAtEq (['C', 'N', '='] ++ v.toList)
      = some (['C', 'N'], v.toList) from rfl]
  dsimp only
  rw [ht, if_neg hne]
  rw [if_pos (by decide : (⟨goToUpper (trimChars ['C', 'N'])⟩ : String) = "CN")]
  rw [show String.mk v.toList = v from rfl]

theorem applyComponent_O (n : DName) (v : String) (hv : goodVal v) :
    applyComponent n (['O', '='] ++ v.toList)
      = .ok { n with organization := n.organization ++ [v] } := by
  obtain ⟨hne, ht, _⟩ := hv
  unfold applyComponent
  rw [show splitAtEq (['O', '='] ++ v.toList) = some (['O'], v.toList) from rfl]
  dsimp only
  rw [ht, if_neg hne]
  rw [if_neg (by decide : ¬(⟨goToUpper (trimChars ['O'])⟩ : String) = "CN")]
  rw [if_pos (by decide : (⟨goToUpper (trimChars ['O'])⟩ : String) = "O")]
  rw [show String.mk v.toList = v from rfl]

theorem applyComponent_OU (n : DName) (v : String) (hv : goodVal v) :
    applyComponent n (['O', 'U', '='] ++ v.toList)
      = .ok { n with organizationalUnit := n.organizationalUnit ++ [v] } := by
  obtain ⟨hne, ht, _⟩ := hv
  unfold applyComponent
  rw [show splitAtEq (['O', 'U', '='] ++ v.toList)
      = some (['O', 'U'], v.toList) from rfl]
  dsimp only
  rw [ht, if_neg hne]
  rw [if_neg (by decide : ¬(⟨goToUpper (trimChars ['O', 'U'])⟩ : String) = "CN")]
  rw [if_neg (by decide : ¬(⟨goToUpper (trimChars ['O', 'U'])⟩ : String) = "O")]
  rw [if_pos (by decide : (⟨goToUpper (trimChars ['O', 'U'])⟩ : String) = "OU")]
  rw [show String.mk v.toList = v from rfl]

theorem applyComponent_L (n : DName) (v : String) (hv : goodVal v) :
    applyComponent n (['L', '='] ++ v.toList)
      = .ok { n with locality := n.locality ++ [v] } := by
  obtain ⟨hne, ht, _⟩ := hv
  unfold applyComponent
  rw [show splitAtEq (['L', '='] ++ v.toList) = some (['L'], v.toList) from rfl]
  dsimp only
  rw [ht, if_neg hne]
  rw [if_neg (by decide : ¬(⟨goToUpper (trimChars ['L'])⟩ : String) = "CN")]
  rw [if_neg (by decide : ¬(⟨goToUpper (trimChars ['L'])⟩ : String) = "O")]
  rw [if_neg (by decide : ¬(⟨goToUpper (trimChars ['L'])⟩ : String) = "OU")]
  rw [if_pos (by decide : (⟨goToUpper (trimChars ['L'])⟩ : String) = "L")]
  rw [show String.mk v.toList = v from rfl]

theorem applyComponent_ST (n : DName) (v : String) (hv : goodVal v) :
    applyComponent n (['S', 'T', '='] ++ v.toList)
      = .ok { n with province := n.province ++ [v] } := by
  obtain ⟨hne, ht, _⟩ := hv
  unfold applyComponent
  rw [show splitAtEq (['S', 'T', '='] ++ v.toList)
      = some (['S', 'T'], v.toList) from rfl]
  dsimp only
  rw [ht, if_neg hne]
  rw [if_neg (by decide : ¬(⟨goToUpper (trimChars ['S', 'T'])⟩ : String) = "CN")]
  rw [if_neg (by decide : ¬(⟨goToUpper (trimChars ['S', 'T'])⟩ : String) = "O")]
  rw [if_neg (by decide : ¬(⟨goToUpper (trimChars ['S', 'T'])⟩ : String) = "OU")]
  rw [if_neg (by decide : ¬(⟨goToUpper (trimChars ['S', 'T'])⟩ : String) = "L")]
  rw [if_pos (by decide : (⟨goToUpper (trimChars ['S', 'T'])⟩ : String) = "ST")]
  rw [show String.mk v.toList = v from rfl]

theorem applyComponent_C (n : DName) (v : String) (hv : goodVal v) :
    applyComponent n (['C', '='] ++ v.toList)
      = .ok { n with country := n.country ++ [v] } := by
  obtain ⟨hne, ht, _⟩ := hv
  unfold applyComponent
  rw [show splitAtEq (['C', '='] ++ v.toList) = some (['C'], v.toList) from rfl]
  dsimp only
  rw [ht, if_neg hne]
  rw [if_neg (by decide : ¬(⟨goToUpper (trimChars ['C'])⟩ : String) = "CN")]
  rw [if_neg (by decide : ¬(⟨goToUpper (trimChars ['C'])⟩ : String) = "O")]
  rw [if_neg (by decide : ¬(⟨goToUpper (trimChars ['C'])⟩ : String) = "OU")]
  rw [if_neg (by decide : ¬(⟨goToUpper (trimChars ['C'])⟩ : String) = "L")]
  rw [if_neg (by decide : ¬(⟨goToUpper (trimChars ['C'])⟩ : String) = "ST")]
  rw [if_pos (by decide : (⟨goToUpper (trimChars ['C'])⟩ : String) = "C")]
  rw [show String.mk v.toList = v from rfl]

theorem parseParts_cons_ok (part : List Char) (rest : List (List Char))
    (n n' : DName) (htrim : trimChars part = part) (hne : part ≠ [])
    (happ : applyComponent n part = .ok n') :
    parseParts (part :: rest) n = parseParts rest n' := by
  conv_lhs => rw [parseParts]
  rw [htrim, if_neg hne, happ]

theorem parseParts_O_comps (os : List String) (n : DName)
    (h : ∀ o ∈ os, goodVal o) :
    parseParts (os.map (fun o => ['O', '='] ++ o.toList)) n
      = .ok { n with organization := n.organization ++ os } := by
  induction os generalizing n with
  | nil => simp; rfl
  | cons o os ih =>
    obtain ⟨hne, ht, hcm⟩ := h o (by simp)
    have htrim : trimChars (['O', '='] ++ o.toList) = ['O', '='] ++ o.toList :=
      trimChars_comp 'O' ['='] o.toList (by decide) hne ht
    rw [List.map_cons,
      parseParts_cons_ok _ _ n _ htrim (by simp) (applyComponent_O n o ⟨hne, ht, hcm⟩),
      ih _ (fun x hx => h x (by simp [hx]))]
    simp [List.append_assoc]

theorem parseParts_OU_comps (us : List String) (n : DName)
    (h : ∀ u ∈ us, goodVal u) :
    parseParts (us.map (fun u => ['O', 'U', '='] ++ u.toList)) n
      = .ok { n with organizationalUnit := n.organizationalUnit ++ us } := by
  induction us generalizing n with
  | nil => simp; rfl
  | cons u us ih =>
    obtain ⟨hne, ht, hcm⟩ := h u (by simp)
    have htrim : trimChars (['O', 'U', '='] ++ u.toList)
        = ['O', 'U', '='] ++ u.toList :=
      trimChars_comp 'O' ['U', '='] u.toList (by decide) hne ht
    rw [List.map_cons,
      parseParts_cons_ok _ _ n _ htrim (by simp) (applyComponent_OU n u ⟨hne, ht, hcm⟩),
      ih _ (fun x hx => h x (by simp [hx]))]
    simp [List.append_assoc]

theorem parseParts_L_comps (ls : List String) (n : DName)
    (h : ∀ x ∈ ls, goodVal x) :
    parseParts (ls.map (fun x => ['L', '='] ++ x.toList)) n
      = .ok { n with locality := n.locality ++ ls } := by
  induction ls generalizing n with
  | nil => simp; rfl
  | cons x ls ih =>
    obtain ⟨hne, ht, hcm⟩ := h x (by simp)
    have htrim : trimChars (['L', '='] ++ x.toList) = ['L', '='] ++ x.toList :=
      trimChars_comp 'L' ['='] x.toList (by decide) hne ht
    rw [List.map_cons,
      parseParts_cons_ok _ _ n _ htrim (by simp) (applyComponent_L n x ⟨hne, ht, hcm⟩),
      ih _ (fun y hy => h y (by simp [hy]))]
    simp [List.append_assoc]

theorem parseParts_ST_comps (ps : List String) (n : DName)
    (h : ∀ x ∈ ps, goodVal x) :
    parseParts (ps.map (fun x => ['S', 'T', '='] ++ x.toList)) n
      = .ok { n with province := n.province ++ ps } := by
  induction ps generalizing n with
  | nil => simp; rfl
  | cons x ps ih =>
    obtain ⟨hne, ht, hcm⟩ := h x (by simp)
    have htrim : trimChars (['S', 'T', '='] ++ x.toList)
        = ['S', 'T', '='] ++ x.toList :=
      trimChars_comp 'S' ['T', '='] x.toList (by decide) hne ht
    rw [List.map_cons,
      parseParts_cons_ok _ _ n _ htrim (by simp) (applyComponent_ST n x ⟨hne, ht, hcm⟩),
      ih _ (fun y hy => h y (by simp [hy]))]
    simp [List.append_assoc]

theorem parseParts_C_comps (cs : List String) (n : DName)
    (h : ∀ x ∈ cs, goodVal x) :
    parseParts (cs.map (fun x => ['C', '='] ++ x.toList)) n
      = .ok { n with country := n.country ++ cs } := by
  induction cs generalizing n with
  | nil => simp; rfl
  | cons x cs ih =>
    obtain ⟨hne, ht, hcm⟩ := h x (by simp)
    have htrim : trimChars (['C', '='] ++ x.toList) = ['C', '='] ++ x.toList :=
      trimChars_comp 'C' ['='] x.toList (by decide) hne ht
    rw [List.map_cons,
      parseParts_cons_ok _ _ n _ htrim (by simp) (applyComponent_C n x ⟨hne, ht, hcm⟩),
      ih _ (fun y hy => h y (by simp [hy]))]
    simp [List.append_assoc]

theorem parseParts_append (xs ys : List (List Char)) (n : DName) :
    parseParts (xs ++ ys) n
      = match parseParts xs n with
        | .error e => .error e
        | .ok n' => parseParts ys n' := by
  induction xs generalizing n with
  | nil => rfl
  | cons x xs ih =>
    simp only [List.cons_append]
    conv_lhs => rw [parseParts]
    conv_rhs => rw [parseParts]
    by_cases hx : trimChars x = []
    · rw [if_pos hx, if_pos hx, ih]
    · rw [if_neg hx, if_neg hx]
      cases applyComponent n (trimChars x) with
      | error e => rfl
      | ok n' => exact ih n'

theorem mem_trimChars (c : Char) (l : List Char) (hc : goIsSpace c = false)
    (hm : c ∈ l) : c ∈ trimChars l := by
  unfold trimChars
  rw [List.mem_reverse]
  have key : ∀ (m : List Char), c ∈ m → c ∈ List.dropWhile goIsSpace m := by
    intro m hmm
    have hsplit := List.takeWhile_append_dropWhile (p := goIsSpace) (l := m)
    rw [← hsplit] at hmm
    rcases List.mem_append.mp hmm with h | h
    · have := List.mem_takeWhile_imp h
      rw [hc] at this
      exact absurd this (by simp)
    · exact h
  exact key _ (List.mem_reverse.mpr (key l hm))

theorem mem_joinComma_head (x : Char) (p : List Char) (ps : List (List Char))
    (hx : x ∈ p) : x ∈ joinComma (p :: ps) := by
  cases ps with
  | nil => exact hx
  | cons q qs =>
    show x ∈ p ++ ',' :: joinComma (q :: qs)
    exact List.mem_append.mpr (Or.inl hx)

/-- C9 counterexample: the claim quantifies over every structured name
with non-empty attribute values, but the codec does not escape commas and
trims whitespace: `O = "Acme, Inc"` formats to `"CN=A,O=Acme, Inc"`, which
parses to the `missing '='` error, and `O = " x"` round-trips to `"x"`,
not `" x"`. -/
theorem parseDN_formatDN_comma_cex :
    parseDN (formatDN { commonName := "A"
                        organization := ["Acme, Inc"]
                        organizationalUnit := []
                        locality := []
                        province := []
                        country := [] })
      = .error (.missingEq "Inc")
    ∧ parseDN (formatDN { commonName := "A"
                          organization := [" x"]
                          organizationalUnit := []
                          locality := []
                          province := []
                          country := [] })
      = .ok { commonName := "A"
              organization := ["x"]
              organizationalUnit := []
              locality := []
              province := []
              country := [] }
    ∧ (["x"] : List String) ≠ [" x"] := by decide

/-- C9 (amended): `ParseDN (FormatDN name) = name` for every structured
name built from the recognized attributes whose values are all non-empty,
comma-free, and carry no leading or trailing whitespace — the restriction
the un-escaped `","` join and the component trimming force. -/
theorem parseDN_formatDN_roundtrip (n : DName) (h : goodDName n) :
    parseDN (formatDN n) = .ok n := by
  obtain ⟨hcn, ho, hou, hl, hst, hc⟩ := h
  obtain ⟨hcnne, hcnt, hcncm⟩ := hcn
  have hcn' : n.commonName ≠ "" := by
    intro hh
    rw [hh] at hcnne
    exact hcnne rfl
  have hcomps : dnComponents n
      = (['C', 'N', '='] ++ n.commonName.toList)
        :: (n.organization.map (fun o => ['O', '='] ++ o.toList)
            ++ (n.organizationalUnit.map (fun u => ['O', 'U', '='] ++ u.toList)
                ++ (n.locality.map (fun x => ['L', '='] ++ x.toList)
                    ++ (n.province.map (fun x => ['S', 'T', '='] ++ x.toList)
                        ++ n.country.map (fun x => ['C', '='] ++ x.toList))))) := by
    unfold dnComponents
    rw [if_neg hcn']
    simp [List.append_assoc]
  have hvalcomma : ∀ (t : List Char) (v : String), ',' ∉ t → goodVal v
      → ',' ∉ t ++ v.toList := by
    intro t v ht hv hm
    obtain ⟨_, _, hcm⟩ := hv
    rcases List.mem_append.mp hm with hx | hx
    · exact ht hx
    · exact hcm hx
  have hnocomma : ∀ p ∈ dnComponents n, ',' ∉ p := by
    rw [hcomps]
    intro p hp
    rcases List.mem_cons.mp hp with rfl | hp
    · exact hvalcomma _ _ (by decide) ⟨hcnne, hcnt, hcncm⟩
    rcases List.mem_append.mp hp with hp | hp
    · obtain ⟨o, hoo, rfl⟩ := List.mem_map.mp hp
      exact hvalcomma _ _ (by decide) (ho o hoo)
    rcases List.mem_append.mp hp with hp | hp
    · obtain ⟨u, huu, rfl⟩ := List.mem_map.mp hp
      exact hvalcomma _ _ (by decide) (hou u huu)
    rcases List.mem_append.mp hp with hp | hp
    · obtain ⟨x, hxx, rfl⟩ := List.mem_map.mp hp
      exact hvalcomma _ _ (by decide) (hl x hxx)
    rcases List.mem_append.mp hp with hp | hp
    · obtain ⟨x, hxx, rfl⟩ := List.mem_map.mp hp
      exact hvalcomma _ _ (by decide) (hst x hxx)
    · obtain ⟨x, hxx, rfl⟩ := List.mem_map.mp hp
      exact hvalcomma _ _ (by decide) (hc x hxx)
  have hCmem : 'C' ∈ joinComma (dnComponents n) := by
    rw [hcomps]
    exact mem_joinComma_head 'C' _ _ (by simp)
  have htrimne : trimChars (joinComma (dnComponents n)) ≠ [] :=
    List.ne_nil_of_mem (mem_trimChars 'C' _ (by decide) hCmem)
  unfold parseDN formatDN
  rw [show (String.mk (joinComma (dnComponents n))).toList
      = joinComma (dnComponents n) from rfl]
  rw [if_neg htrimne]
  rw [splitComma_joinComma _ (by rw [hcomps]; simp) hnocomma]
  rw [hcomps]
  have hcntrim : trimChars (['C', 'N', '='] ++ n.commonName.toList)
      = ['C', 'N', '='] ++ n.commonName.toList :=
    trimChars_comp 'C' ['N', '='] n.commonName.toList (by decide) hcnne hcnt
  rw [parseParts_cons_ok _ _ emptyDName _ hcntrim (by simp)
      (applyComponent_CN emptyDName n.commonName ⟨hcnne, hcnt, hcncm⟩)]
  rw [parseParts_append, parseParts_O_comps _ _ ho]
  dsimp only
  rw [parseParts_append, parseParts_OU_comps _ _ hou]
  dsimp only
  rw [parseParts_append, parseParts_L_comps _ _ hl]
  dsimp only
  rw [parseParts_append, parseParts_ST_comps _ _ hst]
  dsimp only
  rw [parseParts_C_comps _ _ hc]
  simp [emptyDName]

theorem parseDN_formatDN_roundtrip_witness :
    goodDName { commonName := "Test Root CA"
                organization := ["Test Org"]
                organizationalUnit := []
                locality := []
                province := []
                country := ["US"] }
    ∧ parseDN (formatDN { commonName := "Test Root CA"
                          organization := ["Test Org"]
                          organizationalUnit := []
                          locality := []
                          province := []
                          country := ["US"] })
      = .ok { commonName := "Test Root CA"
              organization := ["Test Org"]
              organizationalUnit := []
              locality := []
              province := []
              country := ["US"] } :=
  ⟨by decide,
   parseDN_formatDN_roundtrip
     { commonName := "Test Root CA"
       organization := ["Test Org"]
       organizationalUnit := []
       locality := []
       province := []
       country := ["US"] } (by decide)⟩
